import Mathlib

/-!
Shallow embedding of the flang Fortran front-end core, covering the
assignment type checking, statement-label scopes, implicit typing,
IF/DO construct validation, the integer constant evaluator, array-loop
emission and the driver pipeline, together with theorems settling the
specification claims about them.
-/

namespace Flang

/-- Intrinsic type specifiers of the flang type system.  The predicates
`isIntegerType`, `isRealType`, ... of `Type` test for exactly one of
these; `recordTy` stands for any derived (record) type, which takes no
part in intrinsic conversions. -/
inductive TypeSpec
  | integer
  | real
  | doublePrecision
  | complexTy
  | character
  | logical
  | recordTy
  deriving DecidableEq, Repr

/-- Intrinsic conversion kinds of `ConversionExpr` (INT, REAL, DBLE, CMPLX). -/
inductive ConvKind
  | int
  | real
  | dble
  | cmplx
  deriving DecidableEq, Repr

/-- `Type::isIntegerType` restricted to the type specifier. -/
def isIntegerType (t : TypeSpec) : Bool := t == .integer

/-- `Type::isRealType` restricted to the type specifier. -/
def isRealType (t : TypeSpec) : Bool := t == .real

/-- `Type::isDoublePrecisionType` restricted to the type specifier. -/
def isDoublePrecisionType (t : TypeSpec) : Bool := t == .doublePrecision

/-- `Type::isComplexType` restricted to the type specifier. -/
def isComplexType (t : TypeSpec) : Bool := t == .complexTy

/-- `Type::isLogicalType` restricted to the type specifier. -/
def isLogicalType (t : TypeSpec) : Bool := t == .logical

/-- `Type::isCharacterType` restricted to the type specifier. -/
def isCharacterType (t : TypeSpec) : Bool := t == .character

/-- The `IsRHSArithmetic` test of `Sema::ActOnAssignmentStmt`. -/
def isArithmetic (t : TypeSpec) : Bool :=
  isIntegerType t || isRealType t || isDoublePrecisionType t || isComplexType t

/-- Type-checking part of `Sema::ActOnAssignmentStmt`: given the LHS and RHS
type specifiers it either accepts the assignment, returning the conversion
wrapped around the RHS (`none` when the RHS is kept as is), or it reaches the
`typeError` label, reporting the incompatible-assignment diagnostic with both
types and returning the `StmtError` sentinel (modelled by `Except.error`
carrying the two printed types). -/
def ActOnAssignmentStmt (lhs rhs : TypeSpec) :
    Except (TypeSpec × TypeSpec) (Option ConvKind) :=
  if isIntegerType lhs then
    if isIntegerType rhs then .ok none
    else if isArithmetic rhs then .ok (some .int)
    else .error (lhs, rhs)
  else if isRealType lhs then
    if isRealType rhs then .ok none
    else if isArithmetic rhs then .ok (some .real)
    else .error (lhs, rhs)
  else if isDoublePrecisionType lhs then
    if isDoublePrecisionType rhs then .ok none
    else if isArithmetic rhs then .ok (some .dble)
    else .error (lhs, rhs)
  else if isComplexType lhs then
    if isComplexType rhs then .ok none
    else if isArithmetic rhs then .ok (some .cmplx)
    else .error (lhs, rhs)
  else if isLogicalType lhs then
    if isLogicalType rhs then .ok none else .error (lhs, rhs)
  else if isCharacterType lhs then
    if isCharacterType rhs then .ok none else .error (lhs, rhs)
  else .error (lhs, rhs)

/-- The assignment conversion table of spec section 4.5, transcribed from the
spec words (not from the code): same arithmetic type keeps the RHS, any other
arithmetic RHS converts to the LHS class via INT/REAL/DBLE/CMPLX, LOGICAL
accepts only LOGICAL, CHARACTER accepts only CHARACTER, and every other pair
is an incompatible assignment carrying both types. -/
def specAssignmentTable (lhs rhs : TypeSpec) :
    Except (TypeSpec × TypeSpec) (Option ConvKind) :=
  match lhs, rhs with
  | .integer, .integer => .ok none
  | .integer, .real => .ok (some .int)
  | .integer, .doublePrecision => .ok (some .int)
  | .integer, .complexTy => .ok (some .int)
  | .real, .real => .ok none
  | .real, .integer => .ok (some .real)
  | .real, .doublePrecision => .ok (some .real)
  | .real, .complexTy => .ok (some .real)
  | .doublePrecision, .doublePrecision => .ok none
  | .doublePrecision, .integer => .ok (some .dble)
  | .doublePrecision, .real => .ok (some .dble)
  | .doublePrecision, .complexTy => .ok (some .dble)
  | .complexTy, .complexTy => .ok none
  | .complexTy, .integer => .ok (some .cmplx)
  | .complexTy, .real => .ok (some .cmplx)
  | .complexTy, .doublePrecision => .ok (some .cmplx)
  | .logical, .logical => .ok none
  | .character, .character => .ok none
  | l, r => .error (l, r)

/-- C1: for every pair of LHS and RHS types, `Sema::ActOnAssignmentStmt`
behaves exactly as the conversion table of spec section 4.5: identical
arithmetic types insert no conversion, any other arithmetic RHS is wrapped
in a Conversion with intrinsic kind INT, REAL, DBLE or CMPLX matching the
LHS, Logical and Character accept only themselves, and every remaining pair
produces the incompatible-assignment diagnostic with both types and the
error sentinel. -/
theorem c1_assignment_conversion_table :
    ∀ lhs rhs : TypeSpec, ActOnAssignmentStmt lhs rhs = specAssignmentTable lhs rhs := by
  intro lhs rhs
  cases lhs <;> cases rhs <;> rfl

/-! Statements.  The statement kinds are those of the `Stmt::StmtTy`
enumeration that the Sema actions construct; an IF statement carries its
optional then-statement (`IfStmt::getThenStmt`), which is null for a block
IF (and for an ELSE IF, which is also built as an `IfStmt`) and holds the
body statement for a logical IF. -/

/-- Statement shapes produced by the Sema actions. -/
inductive Stmt
  | programStmt
  | endProgramStmt
  | useStmt
  | importStmt
  | implicitStmt
  | parameterStmt
  | asynchronousStmt
  | dimensionStmt
  | externalStmt
  | intrinsicStmt
  | assignmentStmt
  | assignStmt
  | gotoStmt
  | assignedGotoStmt
  | ifStmt (thenBody : Option Stmt)
  | elseStmt
  | endIfStmt
  | doStmt
  | continueStmt
  | stopStmt
  | printStmt
  | blockStmt

/-- Body constraint for a logical IF used as a DO terminator
(`IsValidDoLogicalIfThenStatement`): the body must not be a DO, an IF
(block or logical), an ELSE, or an END IF. -/
def IsValidDoLogicalIfThenStatement (s : Stmt) : Bool :=
  match s with
  | .doStmt => false
  | .ifStmt _ => false
  | .elseStmt => false
  | .endIfStmt => false
  | _ => true

/-- The DO-terminator check `IsValidDoTerminatingStatement`: GOTO, assigned
GOTO, STOP, DO, ELSE and END IF are rejected; an IF is accepted only when it
has a then-statement (a logical IF) that passes
`IsValidDoLogicalIfThenStatement`; every other statement kind falls into the
accepting default case. -/
def IsValidDoTerminatingStatement (s : Stmt) : Bool :=
  match s with
  | .gotoStmt => false
  | .assignedGotoStmt => false
  | .stopStmt => false
  | .doStmt => false
  | .elseStmt => false
  | .endIfStmt => false
  | .ifStmt thenBody =>
    match thenBody with
    | some next => IsValidDoLogicalIfThenStatement next
    | none => false
  | _ => true

/-- Diagnostics emitted by the Sema actions modelled here. -/
inductive Diag
  | invalidDoTerminatingStmt
  | undeclaredStmtLabel (label : Nat)
  | redefinitionOfStmtLabel (label : Nat)
  | stmtNotInIf (keyword : String)
  | expectedEndIf
  | expectedLogicalExpr
  deriving DecidableEq, Repr

/-- The DO-resolution loop of `Sema::PopExecutableProgramUnit`: for every DO
in `DoStmtList` whose terminating statement was resolved (non-null), one
`invalid DO terminating stmt` diagnostic is reported when the terminator
fails `IsValidDoTerminatingStatement`; unresolved terminators were already
diagnosed earlier and are skipped. -/
def PopExecutableProgramUnitDoChecks (doList : List (Option Stmt)) : List Diag :=
  doList.filterMap fun terminator =>
    match terminator with
    | some s =>
      if IsValidDoTerminatingStatement s then none
      else some .invalidDoTerminatingStmt
    | none => none

/-- C2: the code accepts an END (EndProgram) statement as a DO terminator,
both directly and as the body of a logical IF, and the end-of-unit DO checks
emit no diagnostic for it, although the invalid set of spec section 4.4 (and
the code's own documentation comment above `IsValidDoLogicalIfThenStatement`)
lists END among the forbidden terminators. -/
theorem c2_end_accepted_as_do_terminator :
    IsValidDoTerminatingStatement Stmt.endProgramStmt = true ∧
    IsValidDoTerminatingStatement (Stmt.ifStmt (some Stmt.endProgramStmt)) = true ∧
    PopExecutableProgramUnitDoChecks [some Stmt.endProgramStmt] = [] ∧
    PopExecutableProgramUnitDoChecks [some Stmt.gotoStmt] = [.invalidDoTerminatingStmt] :=
  ⟨rfl, rfl, rfl, rfl⟩

/-! Implicit typing.  `ImplicitTypingScope` keeps a map from single
uppercase letters to types plus a `none` flag; the map keys (one-character
strings in the source) are modelled by character codes.  The rule list is
kept in insertion order; lookup takes the first match, and the keys are
pairwise distinct because every insertion first checks for absence. -/

/-- One implicit-typing scope: the letter-to-type rules and the IMPLICIT
NONE flag.  The parent link is modelled separately by resolving over a list
of scopes, innermost first. -/
structure ImplicitTypingScope where
  rules : List (Nat × TypeSpec)
  noneFlag : Bool
  deriving DecidableEq, Repr

/-- Lookup of a letter code in the rule map (`Rules.find` on the
one-character key). -/
def lookupRule (rules : List (Nat × TypeSpec)) (key : Nat) : Option TypeSpec :=
  match rules.find? (fun p => p.1 == key) with
  | some p => some p.2
  | none => none

/-- C's `toupper` on the first character of an identifier, as a character
code. -/
def toUpperCode (c : Char) : Nat := c.toUpper.toNat

/-- The loop of `ImplicitTypingScope::Apply` over a letter range: walk the
codes from `low` to `high`; as soon as a letter is already mapped return
false, keeping every rule inserted so far; otherwise insert the letter and
continue; past the end return true. -/
def applyRange (rules : List (Nat × TypeSpec)) (t : TypeSpec) (low high : Nat) :
    List (Nat × TypeSpec) × Bool :=
  if low ≤ high then
    if (lookupRule rules low).isSome then (rules, false)
    else applyRange (rules ++ [(low, t)]) t (low + 1) high
  else (rules, true)
termination_by high + 1 - low
decreasing_by omega

/-- `ImplicitTypingScope::Apply`: refuse if the `none` flag is set; for a
letter-range spec run the insertion loop over the uppercased codes; for a
single-letter spec insert the letter unless it is already mapped. -/
def ImplicitTypingScope.Apply (s : ImplicitTypingScope) (low : Char)
    (high : Option Char) (t : TypeSpec) : ImplicitTypingScope × Bool :=
  if s.noneFlag then (s, false)
  else
    match high with
    | some hi =>
      let r := applyRange s.rules t (toUpperCode low) (toUpperCode hi)
      ({ s with rules := r.1 }, r.2)
    | none =>
      let key := toUpperCode low
      if (lookupRule s.rules key).isSome then (s, false)
      else ({ s with rules := s.rules ++ [(key, t)] }, true)

/-- Rule kinds returned by `ImplicitTypingScope::Resolve`. -/
inductive ImplicitRuleType
  | noneRule
  | typeRule
  | defaultRule
  deriving DecidableEq, Repr

/-- `ImplicitTypingScope::Resolve` over a chain of scopes (innermost first):
an IMPLICIT NONE scope answers `noneRule`; a matching letter rule answers
`typeRule` with its type; otherwise the parent is consulted, and with no
parent the answer is `defaultRule`. -/
def ImplicitTypingScope.ResolveChain :
    List ImplicitTypingScope → Char → ImplicitRuleType × Option TypeSpec
  | [], _ => (.defaultRule, none)
  | s :: parents, c =>
    if s.noneFlag then (.noneRule, none)
    else
      match lookupRule s.rules (toUpperCode c) with
      | some t => (.typeRule, some t)
      | none =>
        match parents with
        | [] => (.defaultRule, none)
        | _ => ImplicitTypingScope.ResolveChain parents c

/-- The standard default applied by `Sema::ActOnImplicitEntityDecl` to the
uppercased first letter of the identifier: INTEGER for letters I through N,
REAL otherwise. -/
def defaultImplicitType (letter : Char) : TypeSpec :=
  if 'I' ≤ letter.toUpper ∧ letter.toUpper ≤ 'N' then .integer else .real

/-- `Sema::ActOnImplicitEntityDecl` as implemented: it never consults the
implicit-typing scope (the source carries a FIXME to that effect), but
directly applies the standard default to the identifier's first letter and
declares the entity, emitting no diagnostic for a fresh identifier.  The
returned pair is the synthesized variable's type and the emitted
diagnostics. -/
def ActOnImplicitEntityDecl (firstLetter : Char) : TypeSpec × List Diag :=
  (defaultImplicitType firstLetter, [])

/-- C3: the code does not perform the three-step implicit-typing lookup.
Under a scope with the IMPLICIT NONE flag set, `ImplicitTypingScope::Resolve`
answers `noneRule` (step 1 of the claim demands a `no implicit type`
diagnostic), and under a scope mapping X to INTEGER it answers that rule
(step 2 demands the rule's type), yet `Sema::ActOnImplicitEntityDecl`
synthesizes a REAL variable for X with no diagnostic in both situations;
only the default step matches the claim, giving INTEGER exactly on
letters I..N. -/
theorem c3_implicit_lookup_skipped :
    ImplicitTypingScope.ResolveChain [⟨[], true⟩] 'X' = (.noneRule, none) ∧
    ImplicitTypingScope.ResolveChain [⟨[('X'.toNat, .integer)], false⟩] 'X' =
      (.typeRule, some .integer) ∧
    ActOnImplicitEntityDecl 'X' = (.real, []) ∧
    ActOnImplicitEntityDecl 'i' = (.integer, []) ∧
    ActOnImplicitEntityDecl 'N' = (.integer, []) ∧
    ActOnImplicitEntityDecl 'h' = (.real, []) ∧
    ActOnImplicitEntityDecl 'o' = (.real, []) := by
  refine ⟨?_, ?_, ?_, ?_, ?_, ?_, ?_⟩ <;> decide

lemma lookupRule_append_of_isSome {rules : List (Nat × TypeSpec)} {key : Nat}
    (more : List (Nat × TypeSpec)) (h : (lookupRule rules key).isSome) :
    lookupRule (rules ++ more) key = lookupRule rules key := by
  induction rules with
  | nil => simp [lookupRule, List.find?] at h
  | cons p rest ih =>
    by_cases hp : p.1 == key
    · simp [lookupRule, List.find?, hp]
    · simp only [lookupRule, List.find?, hp, List.cons_append] at h ⊢
      exact ih h

lemma lookupRule_append_single_ne {rules : List (Nat × TypeSpec)} {key j : Nat}
    (t : TypeSpec) (h : lookupRule rules key = none) (hne : key ≠ j) :
    lookupRule (rules ++ [(j, t)]) key = none := by
  induction rules with
  | nil =>
    simp only [List.nil_append, lookupRule, List.find?]
    have : ((j, t).1 == key) = false := by
      simp only [beq_eq_false_iff_ne, ne_eq]
      exact fun hj => hne hj.symm
    simp [this, List.find?]
  | cons p rest ih =>
    by_cases hp : p.1 == key
    · simp [lookupRule, List.find?, hp] at h
    · simp only [lookupRule, List.find?, hp, List.cons_append] at h ⊢
      exact ih h

lemma applyRange_conflict (t : TypeSpec) :
    ∀ (n low high : Nat) (rules : List (Nat × TypeSpec)) (c : Nat),
      c - low = n → low ≤ c → c ≤ high →
      (lookupRule rules c).isSome →
      (∀ j, low ≤ j → j < c → lookupRule rules j = none) →
      applyRange rules t low high =
        (rules ++ (List.range' low (c - low)).map (fun j => (j, t)), false) := by
  intro n
  induction n with
  | zero =>
    intro low high rules c hn hlc hch hsome _
    have hc : c = low := by omega
    subst hc
    rw [applyRange]
    simp [Nat.le_trans hlc hch, hsome]
  | succ n ih =>
    intro low high rules c hn hlc hch hsome hfresh
    have hlow : low < c := by omega
    have hnone : lookupRule rules low = none := hfresh low (Nat.le_refl low) hlow
    rw [applyRange]
    have hlh : low ≤ high := by omega
    simp only [hlh, if_true, hnone, Option.isSome_none, Bool.false_eq_true, if_false]
    have step := ih (low + 1) high (rules ++ [(low, t)]) c (by omega) (by omega) hch
      (by rw [lookupRule_append_of_isSome [(low, t)] hsome]; exact hsome)
      (fun j h1 h2 =>
        lookupRule_append_single_ne t (hfresh j (by omega) h2) (by omega))
    rw [step]
    have hrange : List.range' low (c - low) = low :: List.range' (low + 1) (c - (low + 1)) := by
      have : c - low = (c - (low + 1)) + 1 := by omega
      rw [this, List.range'_succ]
    rw [hrange]
    simp [List.append_assoc]

/-- C10: `ImplicitTypingScope::Apply` is not atomic on failure.  With the
`none` flag set it fails leaving the scope unchanged, and a single-letter
spec fails without mutation when the letter is mapped; but for a range
whose first conflicting letter is `c`, it returns false with the letters
from the start of the range up to (excluding) `c` freshly inserted and kept
in the scope. -/
theorem c10_apply_not_atomic :
    (∀ (s : ImplicitTypingScope) (lo : Char) (hi : Option Char) (t : TypeSpec),
      s.noneFlag = true → s.Apply lo hi t = (s, false)) ∧
    (∀ (s : ImplicitTypingScope) (lo : Char) (t : TypeSpec),
      s.noneFlag = false →
      ((lookupRule s.rules (toUpperCode lo)).isSome → s.Apply lo none t = (s, false)) ∧
      (lookupRule s.rules (toUpperCode lo) = none →
        s.Apply lo none t = ({ s with rules := s.rules ++ [(toUpperCode lo, t)] }, true))) ∧
    (∀ (s : ImplicitTypingScope) (lo hi : Char) (t : TypeSpec) (c : Nat),
      s.noneFlag = false →
      toUpperCode lo ≤ c → c ≤ toUpperCode hi →
      (lookupRule s.rules c).isSome →
      (∀ j, toUpperCode lo ≤ j → j < c → lookupRule s.rules j = none) →
      s.Apply lo (some hi) t =
        ({ s with rules := s.rules ++
            (List.range' (toUpperCode lo) (c - toUpperCode lo)).map (fun j => (j, t)) },
          false)) := by
  refine ⟨?_, ?_, ?_⟩
  · intro s lo hi t hnone
    simp [ImplicitTypingScope.Apply, hnone]
  · intro s lo t hnone
    constructor
    · intro hsome
      simp [ImplicitTypingScope.Apply, hnone, hsome]
    · intro hfresh
      simp [ImplicitTypingScope.Apply, hnone, hfresh]
  · intro s lo hi t c hnone hlc hch hsome hfresh
    have h := applyRange_conflict t (c - toUpperCode lo) (toUpperCode lo)
      (toUpperCode hi) s.rules c rfl hlc hch hsome hfresh
    simp [ImplicitTypingScope.Apply, hnone, h]

/-- Witness for C10 at a concrete scope: applying REAL to the range a..c
over a scope that already maps B fails, yet leaves the freshly inserted
rule for A in the scope. -/
theorem c10_apply_not_atomic_witness :
    ImplicitTypingScope.Apply ⟨[(66, .integer)], false⟩ 'a' (some 'c') .real =
      (⟨[(66, .integer), (65, .real)], false⟩, false) ∧
    ImplicitTypingScope.Apply ⟨[(66, .integer)], true⟩ 'a' (some 'c') .real =
      (⟨[(66, .integer)], true⟩, false) ∧
    ImplicitTypingScope.Apply ⟨[(66, .integer)], false⟩ 'b' none .real =
      (⟨[(66, .integer)], false⟩, false) := by
  refine ⟨?_, ?_, ?_⟩
  · have h := c10_apply_not_atomic.2.2 ⟨[(66, .integer)], false⟩ 'a' 'c' .real 66
      rfl (by decide) (by decide) (by decide)
      (fun j h1 h2 => by
        have : j = 65 := by
          have e1 : toUpperCode 'a' = 65 := by decide
          rw [e1] at h1
          omega
        subst this
        decide)
    rw [h]
    decide
  · have h := c10_apply_not_atomic.1 ⟨[(66, .integer)], true⟩ 'a' (some 'c') .real rfl
    rw [h]
  · have h := (c10_apply_not_atomic.2.1 ⟨[(66, .integer)], false⟩ 'b' .real rfl).1 (by decide)
    rw [h]

/-! Statement labels.  `StmtLabelScope` maps label integers to statements
(statements are identified by arena indices) and records the forward
references declared during the unit.  A forward reference carries the
unresolved label value and the referring statement (the resolve callback is
identified by the statement it patches). -/

/-- A forward statement-label reference (`StmtLabelForwardDecl`). -/
structure StmtLabelForwardDecl where
  label : Nat
  user : Nat
  deriving DecidableEq, Repr

/-- The statement-label scope of one executable program unit. -/
structure StmtLabelScope where
  decls : List (Nat × Nat)
  forwards : List StmtLabelForwardDecl
  deriving DecidableEq, Repr

/-- `StmtLabelScope::Resolve`: look the label value up in the declaration
map. -/
def StmtLabelScope.Resolve (s : StmtLabelScope) (label : Nat) : Option Nat :=
  match s.decls.find? (fun p => p.1 == label) with
  | some p => some p.2
  | none => none

/-- `StmtLabelScope::Declare`: insert the mapping from the label value to
the statement. -/
def StmtLabelScope.Declare (s : StmtLabelScope) (label stmt : Nat) : StmtLabelScope :=
  { s with decls := s.decls ++ [(label, stmt)] }

/-- `Sema::DeclareStatementLabel`: a label already resolvable in the current
scope is reported as a redefinition and nothing is inserted; otherwise the
label is declared. -/
def DeclareStatementLabel (s : StmtLabelScope) (label stmt : Nat) :
    StmtLabelScope × List Diag :=
  match s.Resolve label with
  | some _ => (s, [.redefinitionOfStmtLabel label])
  | none => (s.Declare label stmt, [])

/-- Events produced while fixing forward references at end-of-unit: either
the resolve callback of a forward reference is invoked with the statement
declared under the label, or the undeclared-label diagnostic is emitted. -/
inductive RefEvent
  | resolvedCallback (label : Nat) (user : Nat) (target : Nat)
  | undeclaredDiag (label : Nat)
  deriving DecidableEq, Repr

/-- The forward-reference loop of `Sema::PopExecutableProgramUnit`: each
recorded forward reference is resolved against the label map — invoking its
callback on success, reporting `undeclared statement label` on failure —
and the scope is then reset, clearing both the label map and the
forward-reference list. -/
def PopExecutableProgramUnitForwardRefs (s : StmtLabelScope) :
    List RefEvent × StmtLabelScope :=
  (s.forwards.map fun f =>
      match s.Resolve f.label with
      | some target => .resolvedCallback f.label f.user target
      | none => .undeclaredDiag f.label,
    { decls := [], forwards := [] })

/-- C5: at end-of-unit every recorded forward reference produces exactly one
event — its callback is invoked when the label is declared, or the
undeclared-statement-label diagnostic is emitted — and the forward-reference
list is empty afterwards. -/
theorem c5_forward_refs_resolved_or_diagnosed :
    ∀ s : StmtLabelScope,
      (PopExecutableProgramUnitForwardRefs s).2.forwards = [] ∧
      (PopExecutableProgramUnitForwardRefs s).1.length = s.forwards.length ∧
      ∀ f ∈ s.forwards,
        (∀ target, s.Resolve f.label = some target →
          RefEvent.resolvedCallback f.label f.user target ∈
            (PopExecutableProgramUnitForwardRefs s).1) ∧
        (s.Resolve f.label = none →
          RefEvent.undeclaredDiag f.label ∈ (PopExecutableProgramUnitForwardRefs s).1) := by
  intro s
  refine ⟨rfl, by simp [PopExecutableProgramUnitForwardRefs], ?_⟩
  intro f hf
  constructor
  · intro target htarget
    simp only [PopExecutableProgramUnitForwardRefs, List.mem_map]
    exact ⟨f, hf, by rw [htarget]⟩
  · intro hnone
    simp only [PopExecutableProgramUnitForwardRefs, List.mem_map]
    exact ⟨f, hf, by rw [hnone]⟩

/-- Witness for C5 on a concrete scope with one resolvable and one dangling
forward reference. -/
theorem c5_forward_refs_witness :
    (PopExecutableProgramUnitForwardRefs ⟨[(10, 0)], [⟨10, 1⟩, ⟨20, 2⟩]⟩).2.forwards = [] ∧
    RefEvent.resolvedCallback 10 1 0 ∈
      (PopExecutableProgramUnitForwardRefs ⟨[(10, 0)], [⟨10, 1⟩, ⟨20, 2⟩]⟩).1 ∧
    RefEvent.undeclaredDiag 20 ∈
      (PopExecutableProgramUnitForwardRefs ⟨[(10, 0)], [⟨10, 1⟩, ⟨20, 2⟩]⟩).1 := by
  have h := c5_forward_refs_resolved_or_diagnosed ⟨[(10, 0)], [⟨10, 1⟩, ⟨20, 2⟩]⟩
  refine ⟨h.1, ?_, ?_⟩
  · exact (h.2.2 ⟨10, 1⟩ (by decide)).1 0 (by decide)
  · exact (h.2.2 ⟨20, 2⟩ (by decide)).2 (by decide)

/-- C6: declaring a statement label whose value is already in the label map
emits the redefinition diagnostic and leaves the scope unchanged, while a
fresh label inserts exactly the one new mapping, after which the label
resolves to the statement. -/
theorem c6_label_declaration :
    ∀ (s : StmtLabelScope) (label stmt : Nat),
      ((s.Resolve label).isSome →
        DeclareStatementLabel s label stmt = (s, [.redefinitionOfStmtLabel label])) ∧
      (s.Resolve label = none →
        DeclareStatementLabel s label stmt =
          ({ s with decls := s.decls ++ [(label, stmt)] }, []) ∧
        (DeclareStatementLabel s label stmt).1.Resolve label = some stmt) := by
  intro s label stmt
  constructor
  · intro hsome
    obtain ⟨d, hd⟩ := Option.isSome_iff_exists.mp hsome
    simp [DeclareStatementLabel, hd]
  · intro hnone
    refine ⟨by simp [DeclareStatementLabel, hnone, StmtLabelScope.Declare], ?_⟩
    simp only [DeclareStatementLabel, hnone, StmtLabelScope.Declare]
    have : StmtLabelScope.Resolve { s with decls := s.decls ++ [(label, stmt)] } label =
        some stmt := by
      simp only [StmtLabelScope.Resolve] at hnone ⊢
      rcases hfind : s.decls.find? (fun p => p.1 == label) with _ | p
      · rw [List.find?_append, hfind]
        simp [List.find?]
      · rw [hfind] at hnone
        simp at hnone
    exact this

/-- Witness for C6: redeclaring label 10 is rejected without mutation, and
declaring the fresh label 20 inserts one mapping. -/
theorem c6_label_declaration_witness :
    DeclareStatementLabel ⟨[(10, 0)], []⟩ 10 5 =
      (⟨[(10, 0)], []⟩, [.redefinitionOfStmtLabel 10]) ∧
    DeclareStatementLabel ⟨[(10, 0)], []⟩ 20 5 = (⟨[(10, 0), (20, 5)], []⟩, []) := by
  constructor
  · exact (c6_label_declaration ⟨[(10, 0)], []⟩ 10 5).1 (by decide)
  · exact ((c6_label_declaration ⟨[(10, 0)], []⟩ 20 5).2 (by decide)).1

/-! IF constructs.  `IfStmtStack` holds the open `IfStmt` nodes; nodes are
identified by creation index (`created` counts the IF nodes built so far),
and `links` records every `setElseStmt` call as a pair of the node whose
else branch is set and the node it is linked to.  Each action returns the
new state and whether the `StmtError` sentinel was returned. -/

/-- Sema state relevant to the IF-construct machinery. -/
structure IfConstructState where
  created : Nat
  links : List (Nat × Nat)
  stack : List Nat
  diags : List Diag
  deriving DecidableEq, Repr

/-- `Sema::ActOnIfStmt` (block IF form): reject a non-logical condition,
otherwise create a new IF node and push it on the stack. -/
def ActOnIfStmtBlock (condLogical : Bool) (st : IfConstructState) :
    IfConstructState × Bool :=
  if !condLogical then ({ st with diags := st.diags ++ [.expectedLogicalExpr] }, true)
  else ({ st with created := st.created + 1, stack := st.created :: st.stack }, false)

/-- `Sema::ActOnElseIfStmt`: reject a non-logical condition; with an empty
stack report `stmt not in IF` and return the error sentinel; otherwise
create a new IF node, pop the top IF, set its else branch to the new node
and push the new node. -/
def ActOnElseIfStmt (condLogical : Bool) (st : IfConstructState) :
    IfConstructState × Bool :=
  if !condLogical then ({ st with diags := st.diags ++ [.expectedLogicalExpr] }, true)
  else
    match st.stack with
    | [] => ({ st with diags := st.diags ++ [.stmtNotInIf "ELSE IF"] }, true)
    | top :: rest =>
      ({ st with
          created := st.created + 1,
          links := st.links ++ [(top, st.created)],
          stack := st.created :: rest }, false)

/-- `Sema::ActOnElseStmt`: with an empty stack report `stmt not in IF` and
return the error sentinel; otherwise build the Else statement, leaving the
stack and the else links untouched. -/
def ActOnElseStmt (st : IfConstructState) : IfConstructState × Bool :=
  match st.stack with
  | [] => ({ st with diags := st.diags ++ [.stmtNotInIf "ELSE"] }, true)
  | _ :: _ => (st, false)

/-- `Sema::ActOnEndIfStmt`: with an empty stack report `stmt not in IF` and
return the error sentinel; otherwise pop the top IF. -/
def ActOnEndIfStmt (st : IfConstructState) : IfConstructState × Bool :=
  match st.stack with
  | [] => ({ st with diags := st.diags ++ [.stmtNotInIf "END IF"] }, true)
  | _ :: rest => ({ st with stack := rest }, false)

/-- The IF part of `Sema::PopExecutableProgramUnit`: one `expected END IF`
diagnostic per IF still open on the stack, then the stack is cleared. -/
def PopExecutableProgramUnitIfChecks (st : IfConstructState) : IfConstructState :=
  { st with
      stack := [],
      diags := st.diags ++ st.stack.map (fun _ => Diag.expectedEndIf) }

/-- C4 counterexample: on a state with one open IF, `Sema::ActOnElseStmt`
emits nothing, returns no error, and leaves the stack and the else links
exactly as they were — it neither pops the top IF nor links it, contrary to
the claim that ELSE pops and links. -/
theorem c4_else_does_not_pop_or_link :
    (ActOnElseStmt ⟨1, [], [0], []⟩).1.stack = [0] ∧
    ¬ (ActOnElseStmt ⟨1, [], [0], []⟩).1.stack = [] ∧
    (ActOnElseStmt ⟨1, [], [0], []⟩).1.links = [] ∧
    (ActOnElseStmt ⟨1, [], [0], []⟩).2 = false := by
  decide

lemma map_const_replicate {α β : Type} (c : β) (l : List α) :
    l.map (fun _ => c) = List.replicate l.length c := by
  induction l with
  | nil => rfl
  | cons a l ih => simp [List.replicate, ih]

/-- C4 amended: with an empty stack, ELSE IF (with a logical condition),
ELSE and END IF each report `stmt not in IF` and return the error sentinel;
with a non-empty stack, ELSE IF pops the top IF, links its else branch to
the newly created IF and pushes the new IF, ELSE leaves the state untouched
(it neither pops nor links), END IF pops; and end-of-unit reports one
`expected END IF` per IF still open and clears the stack. -/
theorem c4_if_stack_behavior :
    (∀ st : IfConstructState, st.stack = [] →
      ActOnElseIfStmt true st =
        ({ st with diags := st.diags ++ [.stmtNotInIf "ELSE IF"] }, true) ∧
      ActOnElseStmt st = ({ st with diags := st.diags ++ [.stmtNotInIf "ELSE"] }, true) ∧
      ActOnEndIfStmt st = ({ st with diags := st.diags ++ [.stmtNotInIf "END IF"] }, true)) ∧
    (∀ (st : IfConstructState) (top : Nat) (rest : List Nat), st.stack = top :: rest →
      ActOnElseIfStmt true st =
        ({ st with
            created := st.created + 1,
            links := st.links ++ [(top, st.created)],
            stack := st.created :: rest }, false) ∧
      ActOnElseStmt st = (st, false) ∧
      ActOnEndIfStmt st = ({ st with stack := rest }, false)) ∧
    (∀ st : IfConstructState,
      (PopExecutableProgramUnitIfChecks st).diags =
        st.diags ++ List.replicate st.stack.length Diag.expectedEndIf ∧
      (PopExecutableProgramUnitIfChecks st).stack = []) := by
  refine ⟨?_, ?_, ?_⟩
  · intro st hempty
    refine ⟨?_, ?_, ?_⟩ <;>
      simp [ActOnElseIfStmt, ActOnElseStmt, ActOnEndIfStmt, hempty]
  · intro st top rest hstack
    refine ⟨?_, ?_, ?_⟩ <;>
      simp [ActOnElseIfStmt, ActOnElseStmt, ActOnEndIfStmt, hstack]
  · intro st
    exact ⟨by simp [PopExecutableProgramUnitIfChecks, map_const_replicate], rfl⟩

/-- Witness for C4 on concrete states: the empty-stack diagnostics, the
ELSE IF pop-link-push on a single open IF, and the end-of-unit diagnostics
for two open IFs. -/
theorem c4_if_stack_behavior_witness :
    ActOnElseIfStmt true ⟨0, [], [], []⟩ =
      (⟨0, [], [], [.stmtNotInIf "ELSE IF"]⟩, true) ∧
    ActOnElseIfStmt true ⟨1, [], [0], []⟩ = (⟨2, [(0, 1)], [1], []⟩, false) ∧
    ActOnEndIfStmt ⟨2, [], [1, 0], []⟩ = (⟨2, [], [0], []⟩, false) ∧
    (PopExecutableProgramUnitIfChecks ⟨2, [], [1, 0], []⟩).diags =
      [Diag.expectedEndIf, Diag.expectedEndIf] := by
  refine ⟨?_, ?_, ?_, ?_⟩
  · exact ((c4_if_stack_behavior.1 ⟨0, [], [], []⟩ rfl).1)
  · exact ((c4_if_stack_behavior.2.1 ⟨1, [], [0], []⟩ 0 [] rfl).1)
  · exact ((c4_if_stack_behavior.2.1 ⟨2, [], [1, 0], []⟩ 1 [0] rfl).2.2)
  · exact ((c4_if_stack_behavior.2.2 ⟨2, [], [1, 0], []⟩).1)

/-! The integer constant-expression evaluator (`IntExprEvaluator`).  Values
are 64-bit signed integers: every arithmetic step goes through the checked
operations (`sadd_ov`, `ssub_ov`, `smul_ov`, `sdiv_ov`), and an overflow
makes the evaluation fail.  `none` models the evaluator returning false. -/

/-- Smallest 64-bit signed integer. -/
def int64Min : Int := -(2 ^ 63)

/-- Largest 64-bit signed integer. -/
def int64Max : Int := 2 ^ 63 - 1

/-- The 64-bit signed range. -/
def inInt64 (x : Int) : Prop := int64Min ≤ x ∧ x ≤ int64Max

instance (x : Int) : Decidable (inInt64 x) := by
  unfold inInt64
  exact instDecidableAnd

/-- A checked 64-bit result: the value when it is representable, failure on
overflow (the overflow flag of the `_ov` operations combined with
`CheckResult`). -/
def checkedValue (x : Int) : Option Int :=
  if inInt64 x then some x else none

/-- Binary operators handled by `IntExprEvaluator::VisitBinaryExpr`; every
other operator falls into the rejecting default case. -/
inductive BinaryOp
  | plus
  | minus
  | multiply
  | divide
  | power
  | otherOp
  deriving DecidableEq, Repr

/-- Constant expressions as seen by the evaluator.  `intConst` is an integer
literal with its (unbounded, non-negative) value; `paramConstRef` is a
PARAMETER reference evaluated through its initializer; `notFoldable` stands
for any sub-expression the evaluator rejects (a non-integer-typed
expression or an unhandled node, the `VisitExpr` default). -/
inductive IExpr
  | intConst (value : Nat)
  | unaryMinus (sub : IExpr)
  | unaryPlus (sub : IExpr)
  | binary (op : BinaryOp) (lhs rhs : IExpr)
  | paramConstRef (init : IExpr)
  | notFoldable
  deriving DecidableEq, Repr

/-- `IntValueTy::Assign` on a literal: the literal's value clamped to 64
bits must be a proper signed 64-bit integer, otherwise the evaluation
fails. -/
def assignConst (value : Nat) : Option Int :=
  let u64 := min value (2 ^ 64 - 1)
  if u64 ≤ 2 ^ 63 - 1 then some (Int.ofNat u64) else none

/-- The `**` loop of `VisitBinaryExpr`: starting from `acc` (1 at the
call site), multiply by the base once per exponent step, checking for
overflow after every multiplication. -/
def powLoop (base : Int) : Nat → Int → Option Int
  | 0, acc => some acc
  | n + 1, acc =>
    match checkedValue (acc * base) with
    | some acc2 => powLoop base n acc2
    | none => none

/-- `IntExprEvaluator` evaluation.  The binary case evaluates the RHS first,
then the LHS, then folds: `+ - *` through the checked operations, `/`
through `sdiv_ov` (whose only overflow is `int64Min / -1`; a zero divisor
asserts inside `APInt::sdiv` in the source, so no value is produced there),
and `**` rejects a negative exponent and otherwise runs the
repeated-multiplication loop seeded with 1. -/
def evalInt : IExpr → Option Int
  | .intConst v => assignConst v
  | .unaryMinus sub =>
    match evalInt sub with
    | some x => checkedValue (0 - x)
    | none => none
  | .unaryPlus sub => evalInt sub
  | .paramConstRef init => evalInt init
  | .notFoldable => none
  | .binary op l r =>
    match evalInt r with
    | none => none
    | some b =>
      match evalInt l with
      | none => none
      | some a =>
        match op with
        | .plus => checkedValue (a + b)
        | .minus => checkedValue (a - b)
        | .multiply => checkedValue (a * b)
        | .divide =>
          if b = 0 then none
          else if a = int64Min ∧ b = -1 then none
          else some (Int.tdiv a b)
        | .power =>
          if b < 0 then none
          else powLoop a b.toNat 1
        | .otherOp => none

lemma powLoop_eq_some_iff (base : Int) :
    ∀ (n : Nat) (acc r : Int),
      powLoop base n acc = some r ↔
        (r = acc * base ^ n ∧ ∀ k : Nat, 0 < k → k ≤ n → inInt64 (acc * base ^ k)) := by
  intro n
  induction n with
  | zero =>
    intro acc r
    constructor
    · intro h
      have hr : acc = r := by simpa [powLoop] using h
      subst hr
      exact ⟨by rw [pow_zero, mul_one], fun k hk hk0 => absurd (Nat.lt_of_lt_of_le hk hk0)
        (lt_irrefl 0)⟩
    · rintro ⟨hr, _⟩
      rw [pow_zero, mul_one] at hr
      subst hr
      rfl
  | succ n ih =>
    intro acc r
    by_cases hin : inInt64 (acc * base)
    · have hstep : powLoop base (n + 1) acc = powLoop base n (acc * base) := by
        simp [powLoop, checkedValue, if_pos hin]
      rw [hstep, ih (acc * base) r]
      constructor
      · rintro ⟨hr, hall⟩
        refine ⟨by rw [hr, pow_succ]; ring, ?_⟩
        intro k hk hle
        cases k with
        | zero => omega
        | succ j =>
          rcases Nat.eq_zero_or_pos j with hj | hj
          · subst hj
            simpa [pow_one] using hin
          · have hj' := hall j hj (by omega)
            have heq : acc * base ^ (j + 1) = acc * base * base ^ j := by
              rw [pow_succ]; ring
            rw [heq]
            exact hj'
      · rintro ⟨hr, hall⟩
        refine ⟨by rw [hr, pow_succ]; ring, ?_⟩
        intro j hj hle
        have hj' := hall (j + 1) (by omega) (by omega)
        have heq : acc * base * base ^ j = acc * base ^ (j + 1) := by
          rw [pow_succ]; ring
        rw [heq]
        exact hj'
    · have hstep : powLoop base (n + 1) acc = none := by
        simp [powLoop, checkedValue, if_neg hin]
      rw [hstep]
      constructor
      · intro h
        cases h
      · rintro ⟨_, hall⟩
        exact absurd (by simpa [pow_one] using hall 1 Nat.one_pos (by omega)) hin

/-- C7: the evaluator fails whenever a sub-expression is not foldable; the
operators `+ - *` produce the mathematical result exactly when it fits in
64-bit signed range and fail on overflow; `/` fails on its overflow case
`int64Min / -1`; `**` fails on a negative exponent, and for a non-negative
exponent it succeeds with the mathematical power exactly when every partial
power of the repeated-multiplication loop stays within 64-bit signed
range. -/
theorem c7_integer_evaluator :
    (∀ (op : BinaryOp) (l r : IExpr), evalInt l = none → evalInt (.binary op l r) = none) ∧
    (∀ (op : BinaryOp) (l r : IExpr), evalInt r = none → evalInt (.binary op l r) = none) ∧
    (∀ (l r : IExpr) (a b : Int), evalInt l = some a → evalInt r = some b →
      (evalInt (.binary .plus l r) = if inInt64 (a + b) then some (a + b) else none) ∧
      (evalInt (.binary .minus l r) = if inInt64 (a - b) then some (a - b) else none) ∧
      (evalInt (.binary .multiply l r) = if inInt64 (a * b) then some (a * b) else none)) ∧
    (∀ (l r : IExpr) (a b : Int), evalInt l = some a → evalInt r = some b →
      a = int64Min → b = -1 → evalInt (.binary .divide l r) = none) ∧
    (∀ (l r : IExpr) (a b : Int), evalInt l = some a → evalInt r = some b →
      b < 0 → evalInt (.binary .power l r) = none) ∧
    (∀ (l r : IExpr) (a b : Int), evalInt l = some a → evalInt r = some b → 0 ≤ b →
      ∀ result : Int,
        (evalInt (.binary .power l r) = some result ↔
          (result = a ^ b.toNat ∧ ∀ k : Nat, 0 < k → k ≤ b.toNat → inInt64 (a ^ k)))) := by
  refine ⟨?_, ?_, ?_, ?_, ?_, ?_⟩
  · intro op l r hl
    cases hr : evalInt r with
    | none => simp [evalInt, hr]
    | some b => simp [evalInt, hr, hl]
  · intro op l r hr
    simp [evalInt, hr]
  · intro l r a b hl hr
    refine ⟨?_, ?_, ?_⟩ <;> simp [evalInt, hl, hr, checkedValue]
  · intro l r a b hl hr ha hb
    subst ha
    subst hb
    simp [evalInt, hl, hr, int64Min]
  · intro l r a b hl hr hb
    simp [evalInt, hl, hr, hb]
  · intro l r a b hl hr hb result
    have hnb : ¬ b < 0 := not_lt.mpr hb
    have hev : evalInt (.binary .power l r) = powLoop a b.toNat 1 := by
      simp [evalInt, hl, hr, hnb]
    rw [hev, powLoop_eq_some_iff a b.toNat 1 result]
    simp [one_mul]

/-- Witness for C7 on concrete expressions: a non-foldable operand, a
checked addition that overflows, a multiplication producing `int64Min`, the
overflowing division `int64Min / -1`, a negative exponent, and the
successful power `3 ** 4`. -/
theorem c7_integer_evaluator_witness :
    evalInt (.binary .plus .notFoldable (.intConst 1)) = none ∧
    evalInt (.binary .plus (.intConst (2 ^ 63 - 1)) (.intConst 1)) = none ∧
    evalInt (.binary .divide
      (.binary .multiply (.unaryMinus (.intConst (2 ^ 62))) (.intConst 2))
      (.unaryMinus (.intConst 1))) = none ∧
    evalInt (.binary .power (.intConst 2) (.unaryMinus (.intConst 1))) = none ∧
    evalInt (.binary .power (.intConst 3) (.intConst 4)) = some 81 := by
  refine ⟨?_, ?_, ?_, ?_, ?_⟩
  · exact c7_integer_evaluator.1 .plus .notFoldable (.intConst 1) rfl
  · have h := (c7_integer_evaluator.2.2.1 (.intConst (2 ^ 63 - 1)) (.intConst 1)
      (2 ^ 63 - 1) 1 (by decide) (by decide)).1
    rw [h]
    rw [if_neg (by decide)]
  · exact c7_integer_evaluator.2.2.2.1
      (.binary .multiply (.unaryMinus (.intConst (2 ^ 62))) (.intConst 2))
      (.unaryMinus (.intConst 1)) int64Min (-1) (by decide) (by decide) rfl rfl
  · exact c7_integer_evaluator.2.2.2.2.1 (.intConst 2) (.unaryMinus (.intConst 1))
      2 (-1) (by decide) (by decide) (by decide)
  · have h := c7_integer_evaluator.2.2.2.2.2 (.intConst 3) (.intConst 4) 3 4
      (by decide) (by decide) (by decide) 81
    refine h.mpr ⟨by decide, ?_⟩
    intro k hk hle
    have h4 : k ≤ 4 := by simpa using hle
    interval_cases k <;> decide

/-! Array-operation loop emission (`ArrayLoopEmmitter`).  A section list has
one entry per dimension: a `Range` with offset, size and stride, or a single
`Element`.  `EmitArrayIterationBegin` walks the sections from back to front
and opens one counter loop per range dimension — counter initialized to 0,
loop condition an unsigned less-than against the dimension size, counter
incremented by 1 at the bottom (`EmitArrayIterationEnd`) — so the last
section's loop is outermost.  Element sections get no loop. -/

/-- One array section (`ArraySection`): a range with optional offset and
stride and its size, or a single element. -/
inductive ArraySection
  | range (offset : Option Int) (size : Nat) (stride : Option Int)
  | element (index : Int)
  deriving DecidableEq, Repr

/-- The emitted control structure: the innermost body, wrapped in one
counter loop per range dimension. -/
inductive LoopNest
  | body
  | counterLoop (size : Nat) (inner : LoopNest)
  deriving DecidableEq, Repr

/-- Wrapping one section around the structure emitted so far: a range
section opens a counter loop, an element section opens nothing. -/
def wrapSection (s : ArraySection) (inner : LoopNest) : LoopNest :=
  match s with
  | .range _ size _ => .counterLoop size inner
  | .element _ => inner

/-- `ArrayLoopEmmitter::EmitArrayIterationBegin`: sections are visited from
back to front, so the loop opened for the last range section encloses all
the others. -/
def EmitArrayIterationBegin (sections : List ArraySection) : LoopNest :=
  sections.foldl (fun inner s => wrapSection s inner) .body

/-- Operational meaning of one emitted counter loop, counting executions of
its inner structure: the counter starts at `c` (0 at loop entry), the body
runs while `counter < size` (the unsigned comparison; both numbers are
non-negative counters), and the counter advances by 1 per iteration. -/
def runCounterLoop (size inner c : Nat) : Nat :=
  if c < size then inner + runCounterLoop size inner (c + 1) else 0
termination_by size - c
decreasing_by omega

/-- Number of body executions of an emitted structure. -/
def runNest : LoopNest → Nat
  | .body => 1
  | .counterLoop size inner => runCounterLoop size (runNest inner) 0

/-- Number of counter loops in an emitted structure. -/
def numLoops : LoopNest → Nat
  | .body => 0
  | .counterLoop _ inner => numLoops inner + 1

/-- The sizes of the range sections of a section list, in order. -/
def rangeSizes (sections : List ArraySection) : List Nat :=
  sections.filterMap fun s =>
    match s with
    | .range _ size _ => some size
    | .element _ => none

lemma runCounterLoop_eq (size inner : Nat) :
    ∀ (n c : Nat), size - c = n → runCounterLoop size inner c = n * inner := by
  intro n
  induction n with
  | zero =>
    intro c h
    rw [runCounterLoop, if_neg (by omega)]
    omega
  | succ n ih =>
    intro c h
    rw [runCounterLoop, if_pos (by omega), ih (c + 1) (by omega), Nat.succ_mul]
    omega

lemma runNest_counterLoop (size : Nat) (inner : LoopNest) :
    runNest (.counterLoop size inner) = size * runNest inner := by
  rw [runNest, runCounterLoop_eq size (runNest inner) size 0 (by omega)]

lemma runNest_foldl (sections : List ArraySection) :
    ∀ acc : LoopNest,
      runNest (sections.foldl (fun inner s => wrapSection s inner) acc) =
        (rangeSizes sections).prod * runNest acc := by
  induction sections with
  | nil =>
    intro acc
    simp [rangeSizes]
  | cons s rest ih =>
    intro acc
    rw [List.foldl_cons, ih (wrapSection s acc)]
    cases s with
    | range offset size stride =>
      rw [show wrapSection (.range offset size stride) acc = .counterLoop size acc from rfl,
        runNest_counterLoop]
      simp [rangeSizes, List.filterMap_cons]
      ring
    | element index =>
      simp [wrapSection, rangeSizes, List.filterMap_cons]

lemma numLoops_foldl (sections : List ArraySection) :
    ∀ acc : LoopNest,
      numLoops (sections.foldl (fun inner s => wrapSection s inner) acc) =
        (rangeSizes sections).length + numLoops acc := by
  induction sections with
  | nil =>
    intro acc
    simp [rangeSizes]
  | cons s rest ih =>
    intro acc
    rw [List.foldl_cons, ih (wrapSection s acc)]
    cases s with
    | range offset size stride =>
      rw [show wrapSection (.range offset size stride) acc = .counterLoop size acc from rfl]
      simp [numLoops, rangeSizes, List.filterMap_cons]
      omega
    | element index =>
      simp [wrapSection, rangeSizes, List.filterMap_cons]

/-- C8: the emitted loop nest has exactly one counter loop per range
dimension (element dimensions get none), and it executes the body exactly
the product of the range-section sizes many times. -/
theorem c8_array_loop_linearity :
    ∀ sections : List ArraySection,
      runNest (EmitArrayIterationBegin sections) = (rangeSizes sections).prod ∧
      numLoops (EmitArrayIterationBegin sections) = (rangeSizes sections).length := by
  intro sections
  constructor
  · rw [EmitArrayIterationBegin, runNest_foldl sections .body]
    simp [runNest]
  · rw [EmitArrayIterationBegin, numLoops_foldl sections .body]
    simp [numLoops]

/-! The driver (`Main.cpp`, current revision).  `ParseFile` opens the
input, runs the parser and Sema, then — unless syntax-only was requested or
an error-severity diagnostic was emitted — creates the code generator and
emits the output; it returns whether errors occurred, and `main` turns that
into the process exit status. -/

/-- Diagnostic severities of the diagnostics engine. -/
inductive Severity
  | note
  | warning
  | error
  deriving DecidableEq, Repr

/-- One driver run: whether the `-fsyntax-only` flag was given, whether the
input file could be opened, and the diagnostics emitted during parsing and
semantic analysis. -/
structure DriverRun where
  synOnly : Bool
  fileOpenOk : Bool
  diags : List Severity
  deriving DecidableEq, Repr

/-- `DiagnosticsEngine::hadErrors`: some emitted diagnostic has error
severity. -/
def hadErrors (diags : List Severity) : Bool :=
  diags.any (· == .error)

/-- Whether `ParseFile` reaches the code-generation block: the file opened,
syntax-only was not requested, and no error diagnostic was reported. -/
def codegenInvoked (run : DriverRun) : Bool :=
  run.fileOpenOk && (!run.synOnly && !hadErrors run.diags)

/-- The value `ParseFile` returns: true when the input could not be opened,
otherwise whether any error diagnostic was emitted. -/
def ParseFileResult (run : DriverRun) : Bool :=
  if !run.fileOpenOk then true else hadErrors run.diags

/-- The exit status of `main`: 1 when `ParseFile` reported errors, 0
otherwise. -/
def mainExitStatus (run : DriverRun) : Nat :=
  if ParseFileResult run then 1 else 0

/-- C9: code generation never runs once an error diagnostic was emitted,
and for every run that opened its input and is not syntax-only, the code
generator is invoked exactly when no error diagnostic was reported, the
exit status is 0 exactly on error-free runs, and any error makes the exit
status non-zero. -/
theorem c9_codegen_suppressed_on_errors :
    ∀ run : DriverRun,
      (hadErrors run.diags = true → codegenInvoked run = false) ∧
      (run.fileOpenOk = true → run.synOnly = false →
        (codegenInvoked run = true ↔ hadErrors run.diags = false) ∧
        (mainExitStatus run = 0 ↔ hadErrors run.diags = false) ∧
        (hadErrors run.diags = true → mainExitStatus run ≠ 0)) := by
  intro run
  constructor
  · intro herr
    simp [codegenInvoked, herr]
  · intro hopen hsyn
    refine ⟨?_, ?_, ?_⟩
    · simp [codegenInvoked, hopen, hsyn]
    · simp [mainExitStatus, ParseFileResult, hopen]
    · intro herr
      simp [mainExitStatus, ParseFileResult, hopen, herr]

/-- Witness for C9 on two concrete runs: an error-free compilation invokes
the code generator and exits 0; a run with one error suppresses code
generation and exits non-zero. -/
theorem c9_codegen_suppressed_on_errors_witness :
    codegenInvoked ⟨false, true, [.warning]⟩ = true ∧
    mainExitStatus ⟨false, true, [.warning]⟩ = 0 ∧
    codegenInvoked ⟨false, true, [.warning, .error]⟩ = false ∧
    mainExitStatus ⟨false, true, [.warning, .error]⟩ ≠ 0 := by
  have hok := c9_codegen_suppressed_on_errors ⟨false, true, [.warning]⟩
  have herr := c9_codegen_suppressed_on_errors ⟨false, true, [.warning, .error]⟩
  refine ⟨?_, ?_, ?_, ?_⟩
  · exact ((hok.2 rfl rfl).1).mpr (by decide)
  · exact ((hok.2 rfl rfl).2.1).mpr (by decide)
  · exact herr.1 (by decide)
  · exact (herr.2 rfl rfl).2.2 (by decide)

end Flang
